import Mathlib

/-!
Shallow embedding of the scenario-orchestration core of the
`eddypro_batch_processor` repository, together with theorems settling the
frozen claims about it.

The embedding covers:
* `src/eddypro_batch_processor/scenarios.py` — scenario generation
  (`generate_scenario_suffix`, `generate_scenarios`, the `Scenario`
  dataclass and its `__post_init__` checks);
* `src/eddypro_batch_processor/core.py` — the two-stage pipeline driver
  (`run_eddypro_with_monitoring`) and the per-scenario / batch executors
  (`run_single_scenario`, `run_scenario_batch`);
* `src/eddypro_batch_processor/report.py` — `write_run_manifest` as a
  file-system operation trace;
* `src/eddypro_batch_processor/ecmd.py` — `parse_ecmd_date` and the
  metadata-row selection used by `core.run_single_scenario`;
* `src/eddypro_batch_processor/ini_tools.py` — `patch_project_metadata`
  over an association-list model of `configparser` documents;
* `src/eddypro_batch_processor/monitor.py` — `_percentile`,
  `_calculate_stats` and `_generate_summary` over exact rationals.

Python dictionaries are modelled as association lists (first match wins,
keys assumed duplicate-free where a claim needs dict semantics), raised
exceptions as `Except` values, and machine reals as `ℚ`.
-/

namespace EddyProBatch

/-- First-match association-list lookup; the model of Python dict
indexing / `.get` over a list of key-value pairs. -/
def lookupKey {α : Type} (k : String) : List (String × α) → Option α
  | [] => none
  | p :: ps => if p.1 = k then some p.2 else lookupKey k ps

/-! ### scenarios.py -/

/-- Errors raised by `scenarios.py`, modelled structurally:
`valueError*` constructors stand for the `ValueError`s raised by
`generate_scenarios` and `Scenario.__post_init__`, and `limitExceeded`
for `ScenarioLimitExceededError` together with the count and cap it
reports in its message. -/
inductive GenError where
  | emptyOptions : GenError
  | emptyValueList (param : String) : GenError
  | emptyParameters : GenError
  | emptySuffix : GenError
  | nonPositiveIndex : GenError
  | limitExceeded (count : Nat) (cap : Nat) : GenError
deriving DecidableEq, Repr

/-- `scenarios.Scenario`: an immutable record of parameters, suffix and
1-based index. -/
structure Scenario where
  parameters : List (String × Int)
  suffix : String
  index : Nat
deriving DecidableEq, Repr

/-- `Scenario.__post_init__`: constructing a `Scenario` raises
`ValueError` when the parameters are empty, the suffix is empty, or the
index is not positive. -/
def Scenario.make (parameters : List (String × Int)) (suffix : String)
    (index : Nat) : Except GenError Scenario :=
  if parameters = [] then .error .emptyParameters
  else if suffix = "" then .error .emptySuffix
  else if index < 1 then .error .nonPositiveIndex
  else .ok ⟨parameters, suffix, index⟩

/-- The canonical parameter ordering of
`scenarios.generate_scenario_suffix` (`param_order`). -/
def param_order : List String :=
  ["rot_meth", "tlag_meth", "detrend_meth", "despike_vm"]

/-- The abbreviation table of `scenarios.generate_scenario_suffix`
(`param_abbrev`); only ever consulted at the four names of
`param_order`. -/
def param_abbrev (name : String) : String :=
  if name = "rot_meth" then "rot"
  else if name = "tlag_meth" then "tlag"
  else if name = "detrend_meth" then "det"
  else if name = "despike_vm" then "spk"
  else name

/-- `scenarios.generate_scenario_suffix`: walk `param_order`, emit
`abbrev ++ value` for each parameter present, join with underscores and
prefix one underscore; empty input or no recognized parameter yields the
empty string. -/
def generate_scenario_suffix (parameters : List (String × Int)) : String :=
  if parameters = [] then ""
  else
    let suffix_parts := param_order.filterMap fun name =>
      (lookupKey name parameters).map fun value =>
        param_abbrev name ++ toString value
    if suffix_parts = [] then ""
    else "_" ++ String.intercalate "_" suffix_parts

/-- Lexicographic comparison of character lists by code point — the
ordering Python's `sorted` applies to strings. -/
def charListLe : List Char → List Char → Bool
  | [], _ => true
  | _ :: _, [] => false
  | a :: as, b :: bs =>
    if a.toNat < b.toNat then true
    else if b.toNat < a.toNat then false
    else charListLe as bs

/-- Python string comparison (`sorted` on `str`): lexicographic by code
point. -/
def pyStrLe (a b : String) : Bool :=
  charListLe a.data b.data

/-- `itertools.product` over a list of value lists: the first list
varies slowest, exactly as in the Python enumeration order. -/
def cartProd : List (List Int) → List (List Int)
  | [] => [[]]
  | l :: ls => l.flatMap fun x => (cartProd ls).map fun c => x :: c

/-- The scenario-construction loop of `generate_scenarios`
(`enumerate(itertools.product(...), start=1)`): each combination is
zipped with the sorted parameter names, given its suffix and 1-based
index, and validated by the `Scenario` constructor.  `start` is the
number of combinations already consumed, so the first index produced is
`start + 1`. -/
def buildScenarios (names : List String) :
    List (List Int) → Nat → Except GenError (List Scenario)
  | [], _ => .ok []
  | c :: cs, start => do
    let parameters := names.zip c
    let suffix := generate_scenario_suffix parameters
    let s ← Scenario.make parameters suffix (start + 1)
    let rest ← buildScenarios names cs (start + 1)
    pure (s :: rest)

/-- `scenarios.generate_scenarios`: validate the options, sort the
parameter names, compute the combination count, enforce the cap, and
build the scenario list in enumeration order. -/
def generate_scenarios (parameter_options : List (String × List Int))
    (max_scenarios : Nat := 32) : Except GenError (List Scenario) :=
  if parameter_options.isEmpty then .error .emptyOptions
  else match parameter_options.find? (fun p => p.2.isEmpty) with
    | some p => .error (.emptyValueList p.1)
    | none =>
      let param_names :=
        List.insertionSort (fun a b => pyStrLe a b = true)
          (parameter_options.map Prod.fst)
      let param_value_lists :=
        param_names.map fun name => (lookupKey name parameter_options).getD []
      let total_combinations := (param_value_lists.map List.length).prod
      if total_combinations > max_scenarios then
        .error (.limitExceeded total_combinations max_scenarios)
      else
        buildScenarios param_names (cartProd param_value_lists) 0

/-! ### core.py — two-stage pipeline driver -/

/-- The two external pipeline stages invoked by
`core.run_eddypro_with_monitoring`. -/
inductive Stage where
  | rp : Stage
  | fcc : Stage
deriving DecidableEq, Repr

/-- The stage-invocation and success logic of
`core.run_eddypro_with_monitoring`, abstracted over the exit codes the
two subprocess invocations return.  Mirroring the source: `success`
starts `True`, `eddypro_rp` is invoked and a non-zero return code sets
`success = False`, then `eddypro_fcc` is invoked (unconditionally, with
no check of the rp return code) and a non-zero return code sets
`success = False`.  The result pairs the list of stages invoked, in
order, with the returned success flag. -/
def run_eddypro_with_monitoring (rp_return_code fcc_return_code : Int) :
    List Stage × Bool :=
  let success := true
  let success := if rp_return_code ≠ 0 then false else success
  let success := if fcc_return_code ≠ 0 then false else success
  ([Stage.rp, Stage.fcc], success)

/-! ### core.py — scenario and batch executors

`run_single_scenario` performs file-system and subprocess work that the
embedding abstracts into a per-scenario environment: each fallible stage
of the `try:` block is an `Except String` value (`.error` models the
Python exception carrying its message), and the external execution is an
`Except String Bool` (an exception, or completion with a success flag).
-/

/-- The outcomes the environment supplies for the fallible stages of one
scenario, in the order `core.run_single_scenario` runs them. -/
structure StageEnv where
  /-- `ini_tools.read_ini_template` + parameter validation/patching
  (template errors). -/
  template : Except String Unit
  /-- The `ecmd_path is None or not ecmd_path.exists()` check feeding
  `_raise_missing_ecmd`. -/
  ecmdExists : Bool
  /-- `ecmd.select_ecmd_row_for_year` (metadata errors). -/
  ecmdRow : Except String Unit
  /-- `ini_tools.patch_ini_paths`, `patch_project_metadata`,
  `patch_conditional_date_ranges`, `write_project_file_with_metadata`. -/
  patch : Except String Unit
  /-- `ini_tools.validate_eddypro_inputs` and
  `validate_eddypro_metadata` (preflight errors). -/
  preflight : Except String Unit
  /-- `run_eddypro_with_monitoring`: an exception, or a completed run
  with its success flag. -/
  execution : Except String Bool

/-- The body of the `try:` block of `core.run_single_scenario`: the
stages in source order, short-circuiting on the first raised exception;
on completion it yields the `success` flag and `return_code` recorded in
the scenario metadata (`0` on success, `1` on a failed execution, and a
dry run skips execution with `success = True`, `return_code = 0`). -/
def runSingleScenarioCore (env : Scenario → StageEnv) (dry_run : Bool)
    (s : Scenario) : Except String (Bool × Int) := do
  (env s).template
  if !(env s).ecmdExists then
    throw ("ECMD file not found for site: " ++ s.suffix)
  (env s).ecmdRow
  (env s).patch
  (env s).preflight
  if !dry_run then
    let ok ← (env s).execution
    pure (ok, if ok then 0 else 1)
  else
    pure (true, 0)

/-- The scenario-result record built by `core.run_single_scenario`
(restricted to the fields the claims are about). -/
structure ScenarioResult where
  scenario_index : Nat
  scenario_suffix : String
  success : Bool
  return_code : Int
  error : Option String
  dry_run : Bool
deriving DecidableEq, Repr

/-- `core.run_single_scenario`: run the `try:` block; an exception is
caught at the scenario boundary (`except Exception as e:`) and recorded
in the result with `success = False`, `return_code = -1` and the
captured error message, instead of propagating. -/
def run_single_scenario (env : Scenario → StageEnv) (dry_run : Bool)
    (s : Scenario) : ScenarioResult :=
  match runSingleScenarioCore env dry_run s with
  | .ok (ok, rc) =>
    { scenario_index := s.index, scenario_suffix := s.suffix,
      success := ok, return_code := rc, error := none, dry_run := dry_run }
  | .error e =>
    { scenario_index := s.index, scenario_suffix := s.suffix,
      success := false, return_code := -1, error := some e,
      dry_run := dry_run }

/-- `core.run_scenario_batch`: execute every scenario sequentially,
appending each result; no exception escapes `run_single_scenario`, so
the loop always visits every scenario. -/
def run_scenario_batch (env : Scenario → StageEnv) (dry_run : Bool)
    (scenario_list : List Scenario) : List ScenarioResult :=
  scenario_list.map (run_single_scenario env dry_run)

/-! ### report.py — run-manifest writing as a file-system trace -/

/-- File-system operations, with paths as component lists. -/
inductive FSOp where
  | mkdirParents (path : List String) : FSOp
  | writeFile (path : List String) (content : String) : FSOp
  | rename (src : List String) (dst : List String) : FSOp
deriving DecidableEq, Repr

/-- `report.write_run_manifest`: create the parent directories of
`output_path`, then open `output_path` for writing and dump the manifest
JSON into it.  The trace records the file-system operations performed,
in order. -/
def write_run_manifest (manifest : String) (output_path : List String) :
    List FSOp :=
  [FSOp.mkdirParents output_path.dropLast,
   FSOp.writeFile output_path manifest]

/-- What the specification asserts of the manifest write: some temporary
path distinct from the final path receives the content, the temporary
path is renamed onto the final path, and the final path is never written
directly (so a reader of the final path can never observe a partially
written manifest). -/
def writesAtomically (trace : List FSOp) (final : List String) : Prop :=
  (∃ tmp content, tmp ≠ final ∧ FSOp.writeFile tmp content ∈ trace ∧
    FSOp.rename tmp final ∈ trace) ∧
  ∀ content, FSOp.writeFile final content ∉ trace

/-! ### ecmd.py — date parsing and metadata-row selection -/

/-- A parsed `YYYYMMDDHHMM` timestamp. -/
structure DateTime where
  year : Nat
  month : Nat
  day : Nat
  hour : Nat
  minute : Nat
deriving DecidableEq, Repr

/-- Chronological key: with in-range fields, numeric comparison of the
`YYYYMMDDHHMM` digits is chronological comparison. -/
def DateTime.toKey (d : DateTime) : Nat :=
  d.year * 100000000 + d.month * 1000000 + d.day * 10000 +
    d.hour * 100 + d.minute

/-- Day count of a month, with Gregorian leap years, as enforced by
`datetime.strptime`. -/
def daysInMonth (year month : Nat) : Nat :=
  if month = 2 then
    if year % 4 = 0 ∧ (year % 100 ≠ 0 ∨ year % 400 = 0) then 29 else 28
  else if month = 4 ∨ month = 6 ∨ month = 9 ∨ month = 11 then 30
  else 31

/-- Digit-sequence to number, `none` on a non-digit or the empty
sequence. -/
def parseDigits (cs : List Char) : Option Nat :=
  if cs.isEmpty then none
  else cs.foldl (fun acc c =>
    acc.bind fun n => if c.isDigit then some (n * 10 + (c.toNat - 48)) else none)
    (some 0)

/-- `ecmd.parse_ecmd_date`: `datetime.strptime(date_str, "%Y%m%d%H%M")`
on a twelve-digit string — split into year/month/day/hour/minute and
validate each range (month 1–12, day within the month, hour ≤ 23,
minute ≤ 59); any failure raises `ECMDError` with the offending
string. -/
def parse_ecmd_date (date_str : String) : Except String DateTime :=
  let cs := date_str.data
  if cs.length ≠ 12 then
    .error ("Invalid ECMD date format: " ++ date_str)
  else
    match parseDigits (cs.take 4),
      parseDigits ((cs.drop 4).take 2),
      parseDigits ((cs.drop 6).take 2),
      parseDigits ((cs.drop 8).take 2),
      parseDigits ((cs.drop 10).take 2) with
    | some y, some mo, some d, some h, some mi =>
      if 1 ≤ mo ∧ mo ≤ 12 ∧ 1 ≤ d ∧ d ≤ daysInMonth y mo ∧ h ≤ 23 ∧ mi ≤ 59
      then .ok ⟨y, mo, d, h, mi⟩
      else .error ("Invalid ECMD date format: " ++ date_str)
    | _, _, _, _, _ => .error ("Invalid ECMD date format: " ++ date_str)

/-- One row of the historical ECMD log, as read from the CSV: the site
identifier and the raw `DATE_OF_VARIATION_EF` field. -/
structure EcmdRow where
  siteId : String
  dateOfVariation : String
deriving DecidableEq, Repr

/-- Parse the `DATE_OF_VARIATION_EF` field of every row, failing on the
first unparsable one. -/
def parseRows : List EcmdRow → Except String (List (EcmdRow × DateTime))
  | [] => .ok []
  | r :: rs => do
    let d ← parse_ecmd_date r.dateOfVariation
    let rest ← parseRows rs
    pure ((r, d) :: rest)

/-- The eligible row with the latest effective date; the earlier row in
log order wins a tie. -/
def pickLatest : List (EcmdRow × DateTime) → Option (EcmdRow × DateTime)
  | [] => none
  | rd :: rds =>
    match pickLatest rds with
    | none => some rd
    | some best =>
      some (if best.2.toKey ≤ rd.2.toKey then rd else best)

/-- Modelled from the spec: `ecmd.select_ecmd_row_for_year` is called by
`core.run_single_scenario` and exercised by `tests/test_ecmd.py`, but
its definition is not present under `src/`.  Following the
specification's Metadata Selector contract: restrict the log to rows
matching the site id, fail with a metadata error on an unparsable
effective date, keep the rows whose effective date is at or before the
start of the target year, and return the one with the latest effective
date; if no such row exists (the earliest known row postdates the
target) fail with a metadata error rather than picking a future row. -/
def select_ecmd_row_for_year (rows : List EcmdRow) (site_id : String)
    (year : Nat) : Except String (EcmdRow × DateTime) :=
  let matching := rows.filter fun r => r.siteId = site_id
  match parseRows matching with
  | .error e => .error e
  | .ok parsed =>
    let yearStart : DateTime := ⟨year, 1, 1, 0, 0⟩
    let eligible := parsed.filter fun rd => rd.2.toKey ≤ yearStart.toKey
    match pickLatest eligible with
    | some rd => .ok rd
    | none =>
      .error ("No ECMD row for site effective at or before start of year " ++
        toString year)

/-! ### ini_tools.py — configparser model and project-metadata patching -/

/-- The items of one INI section: an ordered key-value mapping. -/
abbrev INISection : Type := List (String × String)

/-- A parsed INI document: ordered sections of ordered items, the model
of a `configparser.ConfigParser`. -/
abbrev INIConfig : Type := List (String × INISection)

/-- `config.has_section`. -/
def hasSection (config : INIConfig) (section_name : String) : Bool :=
  (lookupKey section_name config).isSome

/-- `config.get(section, key, fallback=None)` as an `Option`. -/
def getOption (config : INIConfig) (section_name key : String) :
    Option String :=
  (lookupKey section_name config).bind (lookupKey key)

/-- `config.get(section, key, fallback="")`. -/
def getFallback (config : INIConfig) (section_name key : String) : String :=
  (getOption config section_name key).getD ""

/-- Replace the value of `key` in a section's items, or append the pair
when the key is absent — `SectionProxy.__setitem__`. -/
def setKey : INISection → String → String → INISection
  | [], k, v => [(k, v)]
  | p :: ps, k, v => if p.1 = k then (k, v) :: ps else p :: setKey ps k v

/-- `config.set(section, key, value)`: update the named section in
place; a missing section leaves the document unchanged (the sources
always guard with `has_section` first, where `configparser` would raise
`NoSectionError`). -/
def setValue : INIConfig → String → String → String → INIConfig
  | [], _, _, _ => []
  | (name, items) :: rest, section_name, k, v =>
    if name = section_name then (name, setKey items k v) :: rest
    else (name, items) :: setValue rest section_name k v

/-- Python `str.strip()`: drop leading and trailing whitespace
characters. -/
def pyStrip (s : String) : String :=
  String.mk
    (((s.data.dropWhile Char.isWhitespace).reverse.dropWhile
      Char.isWhitespace).reverse)

/-- `ini_tools.patch_project_metadata`: require the `Project` section,
set `creation_date` to the current timestamp only when the existing
value is empty after stripping, always overwrite `last_change_date` with
the current timestamp, and derive `project_title` and `project_id` from
site, year and scenario suffix.  `now` stands for
`datetime.now().strftime("%Y-%m-%dT%H:%M:%S")`. -/
def patch_project_metadata (config : INIConfig) (site_id : String)
    (year : Nat) (scenario_suffix : String) (now : String) :
    Except String INIConfig :=
  if !hasSection config "Project" then
    .error "Required section Project missing from template"
  else
    let config :=
      if pyStrip (getFallback config "Project" "creation_date") = "" then
        setValue config "Project" "creation_date" now
      else config
    let config := setValue config "Project" "last_change_date" now
    let project_title :=
      if scenario_suffix ≠ "" then
        site_id ++ " " ++ toString year ++ scenario_suffix
      else site_id ++ " " ++ toString year
    let config := setValue config "Project" "project_title" project_title
    let project_id := site_id ++ "_" ++ toString year
    let config := setValue config "Project" "project_id" project_id
    .ok config

/-! ### monitor.py — summary statistics over exact rationals -/

/-- Python `min` over a non-empty list (`0` only for the empty list,
which every caller guards against). -/
def listMin : List ℚ → ℚ
  | [] => 0
  | x :: xs => xs.foldl min x

/-- Python `max` over a non-empty list. -/
def listMax : List ℚ → ℚ
  | [] => 0
  | x :: xs => xs.foldl max x

/-- The body of `monitor.PerformanceMonitor._percentile` after the
nonempty guard: `index = p * (len(values) - 1)`; an integral index
selects that element, otherwise the value is interpolated linearly
between the two neighbouring elements.  (`int(index)` truncates; for the
non-negative indices arising from `0 ≤ p` it coincides with the floor
used here.) -/
def interpAt (values : List ℚ) (index : ℚ) : ℚ :=
  if index.den = 1 then values.getD index.num.toNat 0
  else
    let lower := (⌊index⌋).toNat
    let upper := lower + 1
    let weight := index - ⌊index⌋
    values.getD lower 0 * (1 - weight) + values.getD upper 0 * weight

/-- `monitor.PerformanceMonitor._percentile`. -/
def percentile (values : List ℚ) (p : ℚ) : ℚ :=
  if values = [] then 0
  else interpAt values (p * ((values.length : ℚ) - 1))

/-- The statistics dictionary built by
`monitor.PerformanceMonitor._calculate_stats`: the percentile entries
are only added when at least two values are present. -/
structure Stats where
  min : ℚ
  max : ℚ
  mean : ℚ
  count : Nat
  p50 : Option ℚ
  p90 : Option ℚ
  p95 : Option ℚ
deriving DecidableEq, Repr

/-- `monitor.PerformanceMonitor._calculate_stats`: empty input yields no
statistics (`{}`); otherwise the values are sorted and min, max, mean,
count and — when `n ≥ 2` — the interpolated p50/p90/p95 over the sorted
values are recorded. -/
def calculate_stats (values : List ℚ) : Option Stats :=
  if values = [] then none
  else
    let sorted := List.insertionSort (fun a b => a ≤ b) values
    let n := sorted.length
    some
      { min := listMin sorted
        max := listMax sorted
        mean := sorted.sum / (n : ℚ)
        count := n
        p50 := if n ≥ 2 then some (percentile sorted (1 / 2)) else none
        p90 := if n ≥ 2 then some (percentile sorted (9 / 10)) else none
        p95 := if n ≥ 2 then some (percentile sorted (19 / 20)) else none }

/-- One monitor sample, restricted to its numeric fields: field name to
optional numeric value (`none` models Python `None`). -/
abbrev Sample : Type := List (String × Option ℚ)

/-- The fields `monitor.PerformanceMonitor._get_numeric_fields` skips. -/
def nonMetricFields : List String := ["timestamp", "relative_time"]

/-- `monitor.PerformanceMonitor._get_numeric_fields`: the numeric keys
of the first sample, excluding `timestamp` and `relative_time`. -/
def get_numeric_fields (samples : List Sample) : List String :=
  match samples with
  | [] => []
  | s :: _ => s.filterMap fun p =>
      if p.1 ∈ nonMetricFields then none
      else if p.2.isSome then some p.1 else none

/-- The summary structure assembled by
`monitor.PerformanceMonitor._generate_summary`, restricted to the fields
the claims are about (`samples.count` and the per-field statistics). -/
structure Summary where
  samplesCount : Nat
  metrics : List (String × Stats)
deriving DecidableEq, Repr

/-- `monitor.PerformanceMonitor._generate_summary`: without samples only
an error entry is produced (`none` here); otherwise the summary records
the sample count and, for every numeric field with at least one non-null
value, the statistics of its values across all samples. -/
def generate_summary (samples : List Sample) : Option Summary :=
  if samples = [] then none
  else
    some
      { samplesCount := samples.length
        metrics := (get_numeric_fields samples).filterMap fun field =>
          let values := samples.filterMap fun s =>
            (lookupKey field s).bind id
          (calculate_stats values).map fun st => (field, st) }

/-! ## Lemmas and claim theorems -/

theorem lookupKey_perm {α : Type} {l₁ l₂ : List (String × α)}
    (hperm : l₁.Perm l₂) (hnd : (l₁.map Prod.fst).Nodup) (k : String) :
    lookupKey k l₁ = lookupKey k l₂ := by
  induction hperm with
  | nil => rfl
  | cons x p ih =>
    simp only [List.map_cons, List.nodup_cons] at hnd
    by_cases h : x.1 = k <;> simp [lookupKey, h, ih hnd.2]
  | swap x y l =>
    simp only [List.map_cons, List.nodup_cons, List.mem_cons] at hnd
    by_cases hy : y.1 = k
    · by_cases hx : x.1 = k
      · exact absurd (hx.trans hy.symm) (fun he => hnd.1 (Or.inl he.symm))
      · simp [lookupKey, hy, hx]
    · by_cases hx : x.1 = k <;> simp [lookupKey, hy, hx]
  | trans p₁ p₂ ih₁ ih₂ =>
    exact (ih₁ hnd).trans (ih₂ (((p₁.map Prod.fst).nodup_iff).mp hnd))

theorem charListLe_total : ∀ a b : List Char,
    charListLe a b = true ∨ charListLe b a = true := by
  intro a
  induction a with
  | nil => intro b; left; rfl
  | cons x xs ih =>
    intro b
    cases b with
    | nil => right; rfl
    | cons y ys =>
      rcases Nat.lt_trichotomy x.toNat y.toNat with hlt | heq | hgt
      · left; simp [charListLe, hlt]
      · have h₁ : ¬ x.toNat < y.toNat := by omega
        have h₂ : ¬ y.toNat < x.toNat := by omega
        rcases ih ys with h | h
        · left; simp [charListLe, h₁, h₂, h]
        · right; simp [charListLe, h₁, h₂, h]
      · right; simp [charListLe, hgt]

theorem charListLe_trans : ∀ a b c : List Char,
    charListLe a b = true → charListLe b c = true → charListLe a c = true := by
  intro a
  induction a with
  | nil => intro b c _ _; rfl
  | cons x xs ih =>
    intro b c hab hbc
    cases b with
    | nil => simp [charListLe] at hab
    | cons y ys =>
      cases c with
      | nil => simp [charListLe] at hbc
      | cons z zs =>
        by_cases hxy : x.toNat < y.toNat <;> by_cases hyz : y.toNat < z.toNat
        · have hxz : x.toNat < z.toNat := by omega
          simp [charListLe, hxz]
        · by_cases hzy : z.toNat < y.toNat
          · simp [charListLe, hyz, hzy] at hbc
          · have hxz : x.toNat < z.toNat := by omega
            simp [charListLe, hxz]
        · by_cases hyx : y.toNat < x.toNat
          · simp [charListLe, hxy, hyx] at hab
          · have hxz : x.toNat < z.toNat := by omega
            simp [charListLe, hxz]
        · by_cases hyx : y.toNat < x.toNat
          · simp [charListLe, hxy, hyx] at hab
          · by_cases hzy : z.toNat < y.toNat
            · simp [charListLe, hyz, hzy] at hbc
            · have hxz : ¬ x.toNat < z.toNat := by omega
              have hzx : ¬ z.toNat < x.toNat := by omega
              simp only [charListLe, hxy, hyx, if_false] at hab
              simp only [charListLe, hyz, hzy, if_false] at hbc
              simp [charListLe, hxz, hzx, ih ys zs hab hbc]

theorem charListLe_antisymm : ∀ a b : List Char,
    charListLe a b = true → charListLe b a = true → a = b := by
  intro a
  induction a with
  | nil =>
    intro b _ hba
    cases b with
    | nil => rfl
    | cons y ys => simp [charListLe] at hba
  | cons x xs ih =>
    intro b hab hba
    cases b with
    | nil => simp [charListLe] at hab
    | cons y ys =>
      by_cases hxy : x.toNat < y.toNat
      · have hyx : ¬ y.toNat < x.toNat := by omega
        simp only [charListLe, if_neg hyx, if_pos hxy] at hba
        exact absurd hba (by decide)
      · by_cases hyx : y.toNat < x.toNat
        · simp [charListLe, hxy, hyx] at hab
        · have hx : x = y := Char.ext (UInt32.ext (show x.toNat = y.toNat by omega))
          simp only [charListLe, hxy, hyx, if_false] at hab hba
          rw [hx, ih ys hab hba]

theorem pyStrLe_total : ∀ a b : String, pyStrLe a b = true ∨ pyStrLe b a = true :=
  fun a b => charListLe_total a.data b.data

theorem pyStrLe_trans : ∀ a b c : String,
    pyStrLe a b = true → pyStrLe b c = true → pyStrLe a c = true :=
  fun a b c => charListLe_trans a.data b.data c.data

theorem pyStrLe_antisymm : ∀ a b : String,
    pyStrLe a b = true → pyStrLe b a = true → a = b := by
  intro a b hab hba
  have h := charListLe_antisymm a.data b.data hab hba
  cases a
  cases b
  simp only at h
  rw [h]

theorem insertionSort_eq_of_perm {l₁ l₂ : List String} (h : l₁.Perm l₂) :
    List.insertionSort (fun a b => pyStrLe a b = true) l₁ =
      List.insertionSort (fun a b => pyStrLe a b = true) l₂ := by
  haveI : IsAntisymm String fun a b => pyStrLe a b = true :=
    ⟨pyStrLe_antisymm⟩
  haveI : IsTotal String fun a b => pyStrLe a b = true := ⟨pyStrLe_total⟩
  haveI : IsTrans String fun a b => pyStrLe a b = true := ⟨pyStrLe_trans⟩
  have hs₁ := List.sorted_insertionSort
    (fun a b : String => pyStrLe a b = true) l₁
  have hs₂ := List.sorted_insertionSort
    (fun a b : String => pyStrLe a b = true) l₂
  have hp : (List.insertionSort (fun a b => pyStrLe a b = true) l₁).Perm
      (List.insertionSort (fun a b => pyStrLe a b = true) l₂) :=
    (List.perm_insertionSort _ l₁).trans
      (h.trans (List.perm_insertionSort _ l₂).symm)
  exact List.eq_of_perm_of_sorted hp hs₁ hs₂

theorem generate_scenario_suffix_perm {l₁ l₂ : List (String × Int)}
    (hperm : l₁.Perm l₂) (hnd : (l₁.map Prod.fst).Nodup) :
    generate_scenario_suffix l₁ = generate_scenario_suffix l₂ := by
  by_cases h₁ : l₁ = []
  · subst h₁
    rw [hperm.symm.eq_nil]
  · have h₂ : l₂ ≠ [] := fun he => h₁ ((he ▸ hperm).eq_nil)
    have hlk : ∀ name, lookupKey name l₁ = lookupKey name l₂ :=
      fun name => lookupKey_perm hperm hnd name
    simp only [generate_scenario_suffix, h₁, h₂, if_false, hlk]

/-- **C7**: `generate_scenario_suffix` renders parameters in the fixed
canonical order rotation, time-lag, detrend, spike-removal with the
fixed abbreviations, joined by underscores and prefixed with an
underscore, independently of the input key order: `{rotation=1,
time-lag=2}` yields `"_rot1_tlag2"` and `{rotation=3, spike-removal=0}`
yields `"_rot3_spk0"` in either insertion order, and in general the
suffix of a duplicate-free parameter mapping is invariant under
reordering of its pairs. -/
theorem C7_scenario_suffix_canonical_order :
    generate_scenario_suffix [("rot_meth", 1), ("tlag_meth", 2)] = "_rot1_tlag2" ∧
    generate_scenario_suffix [("tlag_meth", 2), ("rot_meth", 1)] = "_rot1_tlag2" ∧
    generate_scenario_suffix [("rot_meth", 3), ("despike_vm", 0)] = "_rot3_spk0" ∧
    generate_scenario_suffix [("despike_vm", 0), ("rot_meth", 3)] = "_rot3_spk0" ∧
    ∀ (l₁ l₂ : List (String × Int)), l₁.Perm l₂ → (l₁.map Prod.fst).Nodup →
      generate_scenario_suffix l₁ = generate_scenario_suffix l₂ :=
  ⟨by decide, by decide, by decide, by decide,
   fun _ _ hperm hnd => generate_scenario_suffix_perm hperm hnd⟩

/-- **C7 witness**: the order-independence part applied at the concrete
pair of insertion orders from the claim. -/
theorem C7_scenario_suffix_canonical_order_witness :
    generate_scenario_suffix [("despike_vm", 0), ("rot_meth", 3)] =
      generate_scenario_suffix [("rot_meth", 3), ("despike_vm", 0)] :=
  C7_scenario_suffix_canonical_order.2.2.2.2
    [("despike_vm", 0), ("rot_meth", 3)] [("rot_meth", 3), ("despike_vm", 0)]
    (by decide) (by decide)

theorem lookupKey_filter {α : Type} (P : String × α → Bool) (k : String)
    (l : List (String × α)) (hP : ∀ p : String × α, p.1 = k → P p = true) :
    lookupKey k (l.filter P) = lookupKey k l := by
  induction l with
  | nil => rfl
  | cons p ps ih =>
    by_cases hk : p.1 = k
    · rw [List.filter_cons_of_pos (hP p hk)]
      simp [lookupKey, hk]
    · by_cases hp : P p = true
      · rw [List.filter_cons_of_pos hp]
        simp [lookupKey, hk, ih]
      · rw [List.filter_cons_of_neg (by simpa using hp)]
        simp [lookupKey, hk, ih]

theorem generate_scenario_suffix_filter (params : List (String × Int)) :
    generate_scenario_suffix params =
      generate_scenario_suffix
        (params.filter fun p => decide (p.1 ∈ param_order)) := by
  have hlk : ∀ name ∈ param_order,
      lookupKey name (params.filter fun p => decide (p.1 ∈ param_order)) =
        lookupKey name params := by
    intro name hname
    exact lookupKey_filter _ name params
      (fun p hp => by simp [hp, hname])
  have hparts :
      (param_order.filterMap fun name =>
        (lookupKey name params).map fun value =>
          param_abbrev name ++ toString value) =
      (param_order.filterMap fun name =>
        (lookupKey name (params.filter fun p =>
            decide (p.1 ∈ param_order))).map fun value =>
          param_abbrev name ++ toString value) :=
    List.filterMap_congr fun name hname => by rw [hlk name hname]
  by_cases h₁ : params = []
  · subst h₁; rfl
  · by_cases h₂ : (params.filter fun p => decide (p.1 ∈ param_order)) = []
    · have hempty :
          (param_order.filterMap fun name =>
            (lookupKey name params).map fun value =>
              param_abbrev name ++ toString value) = [] := by
        rw [hparts, h₂]
        rfl
      rw [h₂]
      simp only [generate_scenario_suffix, if_neg h₁, hempty]
      rfl
    · simp only [generate_scenario_suffix, if_neg h₁, if_neg h₂, hparts]

/-- **C10**: the scenario suffix includes only parameters named
`rot_meth`, `tlag_meth`, `detrend_meth` or `despike_vm` — filtering any
other name out of the mapping leaves the suffix unchanged; consequently
two different parameter sets can share one suffix (`{rot_meth: 1}` and
`{rot_meth: 1, despike_meth: 0}`), and `generate_scenarios` on a
non-empty options mapping containing only omitted names (every value
list non-empty, combination count 2 well within the cap 32) fails with
the `Scenario` constructor's empty-suffix error. -/
theorem C10_suffix_silently_omits_other_names :
    (∀ params : List (String × Int),
      generate_scenario_suffix params =
        generate_scenario_suffix
          (params.filter fun p => decide (p.1 ∈ param_order))) ∧
    (generate_scenario_suffix [("rot_meth", 1)] =
        generate_scenario_suffix [("rot_meth", 1), ("despike_meth", 0)] ∧
      ([("rot_meth", (1 : Int))] : List (String × Int)) ≠
        [("rot_meth", 1), ("despike_meth", 0)]) ∧
    generate_scenarios [("despike_meth", [0]), ("foo", [1, 2])] 32 =
      .error .emptySuffix :=
  ⟨generate_scenario_suffix_filter, ⟨by decide, by decide⟩, by rfl⟩

/-- **C2** (code-bug evidence): with `eddypro_rp` exiting 1, the code
still invokes the `fcc` stage — the invoked-stage list is
`[rp, fcc]` rather than `[rp]` — while the repository's own test
`test_skips_fcc_when_rp_fails` requires exactly one invocation; the
success flag does satisfy the claim's other half: it is `true` exactly
when both stages exit 0. -/
theorem C2_fcc_invoked_despite_rp_failure :
    (run_eddypro_with_monitoring 1 0).1 = [Stage.rp, Stage.fcc] ∧
    Stage.fcc ∈ (run_eddypro_with_monitoring 1 0).1 ∧
    (run_eddypro_with_monitoring 1 0).2 = false ∧
    ∀ rp_code fcc_code : Int,
      (run_eddypro_with_monitoring rp_code fcc_code).2 = true ↔
        (rp_code = 0 ∧ fcc_code = 0) := by
  refine ⟨rfl, by decide, rfl, ?_⟩
  intro rp_code fcc_code
  by_cases h1 : rp_code = 0 <;> by_cases h2 : fcc_code = 0 <;>
    simp [run_eddypro_with_monitoring, h1, h2]

/-- **C3 counterexample**: `write_run_manifest` does not write
atomically — at the concrete manifest path the trace writes the final
path directly, violating the claimed temp-write-then-rename
discipline. -/
theorem C3_counterexample_manifest_write_not_atomic :
    ¬ writesAtomically
        (write_run_manifest "manifest-json" ["reports", "run_manifest.json"])
        ["reports", "run_manifest.json"] := by
  intro h
  exact h.2 "manifest-json" (by simp [write_run_manifest])

/-- **C3 amended**: `write_run_manifest` creates the parent directories
and then writes the manifest JSON directly to the final path; no
temporary path is written and no rename is performed, so atomicity of
the manifest write is not provided. -/
theorem C3_manifest_written_directly :
    ∀ (manifest : String) (output_path : List String),
      FSOp.writeFile output_path manifest ∈
          write_run_manifest manifest output_path ∧
      (∀ src dst, FSOp.rename src dst ∉
          write_run_manifest manifest output_path) ∧
      write_run_manifest manifest output_path =
        [FSOp.mkdirParents output_path.dropLast,
         FSOp.writeFile output_path manifest] := by
  intro manifest output_path
  refine ⟨by simp [write_run_manifest], ?_, rfl⟩
  intro src dst
  simp [write_run_manifest]

theorem lookupKey_setKey_self (items : INISection) (k v : String) :
    lookupKey k (setKey items k v) = some v := by
  induction items with
  | nil => simp [setKey, lookupKey]
  | cons p ps ih =>
    by_cases h : p.1 = k
    · simp [setKey, h, lookupKey]
    · simp [setKey, h, lookupKey, ih]

theorem lookupKey_setKey_other (items : INISection) (k k' v : String)
    (h : k' ≠ k) : lookupKey k' (setKey items k v) = lookupKey k' items := by
  have h1 : ¬ k = k' := fun he => h he.symm
  induction items with
  | nil => simp [setKey, lookupKey, h1]
  | cons p ps ih =>
    by_cases hp : p.1 = k
    · have h2 : ¬ p.1 = k' := fun he => h (he.symm.trans hp)
      simp [setKey, hp, lookupKey, h1, h2]
    · simp only [setKey, if_neg hp, lookupKey, ih]

theorem lookupKey_setValue (config : INIConfig) (s k v : String) :
    lookupKey s (setValue config s k v) =
      (lookupKey s config).map fun items => setKey items k v := by
  induction config with
  | nil => simp [setValue, lookupKey]
  | cons sec rest ih =>
    by_cases h : sec.1 = s
    · simp [setValue, h, lookupKey]
    · simp [setValue, h, lookupKey, ih]

theorem lookupKey_setValue_other (config : INIConfig) (s s' k v : String)
    (h : s' ≠ s) : lookupKey s' (setValue config s k v) =
      lookupKey s' config := by
  have h1 : ¬ s = s' := fun he => h he.symm
  induction config with
  | nil => simp [setValue]
  | cons sec rest ih =>
    by_cases hp : sec.1 = s
    · have h2 : ¬ sec.1 = s' := fun he => h (he.symm.trans hp)
      simp [setValue, hp, lookupKey, h1, h2]
    · simp only [setValue, if_neg hp, lookupKey, ih]

theorem hasSection_setValue (config : INIConfig) (s s' k v : String) :
    hasSection (setValue config s k v) s' = hasSection config s' := by
  by_cases h : s' = s
  · subst h
    simp only [hasSection, lookupKey_setValue]
    cases lookupKey s' config <;> simp
  · simp [hasSection, lookupKey_setValue_other config s s' k v h]

theorem getOption_setValue_self (config : INIConfig) (s k v : String)
    (h : hasSection config s = true) :
    getOption (setValue config s k v) s k = some v := by
  simp only [getOption, lookupKey_setValue]
  simp only [hasSection, Option.isSome_iff_exists] at h
  obtain ⟨items, hitems⟩ := h
  simp [hitems, lookupKey_setKey_self]

theorem getOption_setValue_other_key (config : INIConfig) (s k k' v : String)
    (h : k' ≠ k) :
    getOption (setValue config s k v) s k' = getOption config s k' := by
  simp only [getOption, lookupKey_setValue]
  cases lookupKey s config with
  | none => simp
  | some items => simp [lookupKey_setKey_other items k k' v h]

/-- The successful branch of `patch_project_metadata`, written out. -/
theorem patch_project_metadata_eq (config : INIConfig) (site_id : String)
    (year : Nat) (suffix : String) (now : String)
    (hsec : hasSection config "Project" = true) :
    patch_project_metadata config site_id year suffix now =
      .ok (setValue (setValue (setValue
        (if pyStrip (getFallback config "Project" "creation_date") = "" then
          setValue config "Project" "creation_date" now
        else config)
        "Project" "last_change_date" now)
        "Project" "project_title"
        (if suffix ≠ "" then site_id ++ " " ++ toString year ++ suffix
         else site_id ++ " " ++ toString year))
        "Project" "project_id" (site_id ++ "_" ++ toString year)) := by
  simp only [patch_project_metadata, hsec, Bool.not_true, Bool.false_eq_true,
    if_false]

/-- **C8**: `patch_project_metadata` is idempotent for `creation_date`:
starting from any document with a `Project` section, patching once with
timestamp `now₁` (any non-blank timestamp string) and again with `now₂`
leaves `creation_date` unchanged by the second call, while
`last_change_date` is overwritten with the current timestamp on every
call (`now₁` after the first, `now₂` after the second). -/
theorem C8_patch_project_metadata_creation_date_idempotent
    (config : INIConfig) (site_id : String) (year : Nat) (suffix : String)
    (now₁ now₂ : String)
    (hsec : hasSection config "Project" = true)
    (hnow : pyStrip now₁ ≠ "") :
    ∃ c₁ c₂,
      patch_project_metadata config site_id year suffix now₁ = .ok c₁ ∧
      patch_project_metadata c₁ site_id year suffix now₂ = .ok c₂ ∧
      getOption c₂ "Project" "creation_date" =
        getOption c₁ "Project" "creation_date" ∧
      getOption c₁ "Project" "last_change_date" = some now₁ ∧
      getOption c₂ "Project" "last_change_date" = some now₂ := by
  set c₀ : INIConfig :=
    (if pyStrip (getFallback config "Project" "creation_date") = "" then
      setValue config "Project" "creation_date" now₁
    else config) with hc₀
  set title : String :=
    (if suffix ≠ "" then site_id ++ " " ++ toString year ++ suffix
     else site_id ++ " " ++ toString year) with htitle
  set pid : String := site_id ++ "_" ++ toString year with hpid
  set c₁ : INIConfig :=
    setValue (setValue (setValue c₀ "Project" "last_change_date" now₁)
      "Project" "project_title" title) "Project" "project_id" pid with hc₁
  have hs₀ : hasSection c₀ "Project" = true := by
    rw [hc₀]
    by_cases hb : pyStrip (getFallback config "Project" "creation_date") = "" <;>
      simp [hb, hasSection_setValue, hsec]
  have hsc₁ : hasSection c₁ "Project" = true := by
    rw [hc₁]
    simp [hasSection_setValue, hs₀]
  have hcre₁ : getOption c₁ "Project" "creation_date" =
      getOption c₀ "Project" "creation_date" := by
    rw [hc₁, getOption_setValue_other_key _ _ _ _ _ (by decide),
      getOption_setValue_other_key _ _ _ _ _ (by decide),
      getOption_setValue_other_key _ _ _ _ _ (by decide)]
  have hlast₁ : getOption c₁ "Project" "last_change_date" = some now₁ := by
    rw [hc₁, getOption_setValue_other_key _ _ _ _ _ (by decide),
      getOption_setValue_other_key _ _ _ _ _ (by decide),
      getOption_setValue_self _ _ _ _ hs₀]
  have hfb : ¬ pyStrip (getFallback c₁ "Project" "creation_date") = "" := by
    by_cases hb : pyStrip (getFallback config "Project" "creation_date") = ""
    · have hset : getOption c₀ "Project" "creation_date" = some now₁ := by
        rw [hc₀, if_pos hb]
        exact getOption_setValue_self config _ _ _ hsec
      simp only [getFallback, hcre₁, hset, Option.getD_some]
      exact hnow
    · have hkeep : getOption c₀ "Project" "creation_date" =
          getOption config "Project" "creation_date" := by
        rw [hc₀, if_neg hb]
      simp only [getFallback, hcre₁, hkeep]
      exact hb
  set c₂ : INIConfig :=
    setValue (setValue (setValue c₁ "Project" "last_change_date" now₂)
      "Project" "project_title" title) "Project" "project_id" pid with hc₂
  refine ⟨c₁, c₂, ?_, ?_, ?_, hlast₁, ?_⟩
  · rw [patch_project_metadata_eq config site_id year suffix now₁ hsec]
  · rw [patch_project_metadata_eq c₁ site_id year suffix now₂ hsc₁,
      if_neg hfb]
  · rw [hc₂, getOption_setValue_other_key _ _ _ _ _ (by decide),
      getOption_setValue_other_key _ _ _ _ _ (by decide),
      getOption_setValue_other_key _ _ _ _ _ (by decide)]
  · rw [hc₂, getOption_setValue_other_key _ _ _ _ _ (by decide),
      getOption_setValue_other_key _ _ _ _ _ (by decide),
      getOption_setValue_self _ _ _ _ hsc₁]

/-- **C8 witness**: the idempotence theorem applied to a concrete
template whose `creation_date` starts empty. -/
theorem C8_patch_project_metadata_witness :
    ∃ c₁ c₂,
      patch_project_metadata
        [("Project", [("creation_date", ""), ("file_prototype", "f.csv")])]
        "GL-ZaF" 2021 "_rot1" "2024-01-02T03:04:05" = .ok c₁ ∧
      patch_project_metadata c₁ "GL-ZaF" 2021 "_rot1" "2024-06-07T08:09:10" =
        .ok c₂ ∧
      getOption c₂ "Project" "creation_date" =
        getOption c₁ "Project" "creation_date" ∧
      getOption c₁ "Project" "last_change_date" =
        some "2024-01-02T03:04:05" ∧
      getOption c₂ "Project" "last_change_date" =
        some "2024-06-07T08:09:10" :=
  C8_patch_project_metadata_creation_date_idempotent
    [("Project", [("creation_date", ""), ("file_prototype", "f.csv")])]
    "GL-ZaF" 2021 "_rot1" "2024-01-02T03:04:05" "2024-06-07T08:09:10"
    (by decide) (by decide)

theorem sum_map_const {α : Type} (l : List α) (k : Nat) :
    (l.map fun _ => k).sum = l.length * k := by
  induction l with
  | nil => simp
  | cons x xs ih => simp [ih, Nat.succ_mul, Nat.add_comm]

theorem cartProd_length (ls : List (List Int)) :
    (cartProd ls).length = (ls.map List.length).prod := by
  induction ls with
  | nil => rfl
  | cons l ls ih =>
    simp only [cartProd, List.length_flatMap, Function.comp_def,
      List.length_map, ih, List.map_cons, List.prod_cons]
    rw [sum_map_const]

theorem cartProd_mem_length {ls : List (List Int)} {c : List Int}
    (h : c ∈ cartProd ls) : c.length = ls.length := by
  induction ls generalizing c with
  | nil =>
    simp only [cartProd, List.mem_singleton] at h
    simp [h]
  | cons l ls ih =>
    simp only [cartProd, List.mem_flatMap, List.mem_map] at h
    obtain ⟨x, _, c2, hc2, hc⟩ := h
    subst hc
    simp [ih hc2]

theorem lookupKey_zip_isSome {names : List String} {c : List Int}
    {nm : String} (hmem : nm ∈ names) (hlen : c.length = names.length) :
    (lookupKey nm (names.zip c)).isSome = true := by
  induction names generalizing c with
  | nil => cases hmem
  | cons n ns ih =>
    cases c with
    | nil => simp at hlen
    | cons x cs =>
      by_cases hn : n = nm
      · simp [List.zip_cons_cons, lookupKey, hn]
      · rcases List.mem_cons.mp hmem with h | h
        · exact absurd h.symm hn
        · simp only [List.zip_cons_cons, lookupKey, if_neg hn]
          exact ih h (by simpa using hlen)

theorem generate_scenario_suffix_ne_empty {params : List (String × Int)}
    (hne : params ≠ [])
    (hsome : ∃ nm ∈ param_order, (lookupKey nm params).isSome = true) :
    generate_scenario_suffix params ≠ "" := by
  obtain ⟨nm, hnm, hs⟩ := hsome
  simp only [generate_scenario_suffix, if_neg hne]
  have hparts : (param_order.filterMap fun name =>
      (lookupKey name params).map fun value =>
        param_abbrev name ++ toString value) ≠ [] := by
    intro hnil
    have := List.filterMap_eq_nil_iff.mp hnil nm hnm
    rw [Option.isSome_iff_exists] at hs
    obtain ⟨v, hv⟩ := hs
    simp [hv] at this
  rw [if_neg hparts]
  intro h
  have := congrArg String.length h
  simp only [String.length_append] at this
  have h1 : "_".length = 1 := rfl
  have h0 : ("" : String).length = 0 := rfl
  omega

theorem zip_ne_nil {names : List String} {c : List Int}
    (hne : names ≠ []) (hlen : c.length = names.length) :
    names.zip c ≠ [] := by
  cases names with
  | nil => exact absurd rfl hne
  | cons n ns =>
    cases c with
    | nil => simp at hlen
    | cons x cs => simp [List.zip_cons_cons]

theorem buildScenarios_ok {names : List String} (combos : List (List Int))
    (start : Nat) (hne : names ≠ [])
    (hlen : ∀ c ∈ combos, c.length = names.length)
    (hsuf : ∃ nm ∈ param_order, nm ∈ names) :
    ∃ l, buildScenarios names combos start = .ok l ∧
      l.length = combos.length ∧
      ∀ i (h : i < l.length), (l.get ⟨i, h⟩).index = start + i + 1 := by
  induction combos generalizing start with
  | nil =>
    exact ⟨[], rfl, rfl, fun i h => absurd h (by simp)⟩
  | cons c cs ih =>
    have hc := hlen c (List.mem_cons_self c cs)
    have hparams : names.zip c ≠ [] := zip_ne_nil hne hc
    have hsuffix : generate_scenario_suffix (names.zip c) ≠ "" := by
      obtain ⟨nm, hnm, hmem⟩ := hsuf
      exact generate_scenario_suffix_ne_empty hparams
        ⟨nm, hnm, lookupKey_zip_isSome hmem hc⟩
    have hmk : Scenario.make (names.zip c)
        (generate_scenario_suffix (names.zip c)) (start + 1) =
        .ok ⟨names.zip c, generate_scenario_suffix (names.zip c),
          start + 1⟩ := by
      simp [Scenario.make, hparams, hsuffix]
    obtain ⟨rest, hrest, hrlen, hridx⟩ :=
      ih (start + 1) (fun x hx => hlen x (List.mem_cons_of_mem c hx))
    refine ⟨⟨names.zip c, generate_scenario_suffix (names.zip c),
        start + 1⟩ :: rest, ?_, by simp [hrlen], ?_⟩
    · simp only [buildScenarios, hmk, hrest]
      rfl
    · intro i h
      cases i with
      | zero => simp
      | succ j =>
        have hj : j < rest.length := by simpa using h
        have := hridx j hj
        simp only [List.get_cons_succ]
        rw [this]
        omega

theorem lookupKey_self {α : Type} {opts : List (String × α)}
    (hnodup : (opts.map Prod.fst).Nodup) :
    ∀ p ∈ opts, lookupKey p.1 opts = some p.2 := by
  induction opts with
  | nil => intro p hp; cases hp
  | cons q qs ih =>
    simp only [List.map_cons, List.nodup_cons] at hnodup
    intro p hp
    rcases List.mem_cons.mp hp with h | h
    · subst h
      simp [lookupKey]
    · have hne : ¬ q.1 = p.1 := by
        intro he
        exact hnodup.1 (he ▸ List.mem_map_of_mem Prod.fst h)
      simp only [lookupKey, if_neg hne]
      exact ih hnodup.2 p h

/-- The combination count `generate_scenarios` computes over the sorted
parameter names equals the product of the per-parameter value-list
lengths of the input mapping. -/
theorem total_combinations_eq (opts : List (String × List Int))
    (hnodup : (opts.map Prod.fst).Nodup) :
    (((List.insertionSort (fun a b => pyStrLe a b = true)
        (opts.map Prod.fst)).map fun name =>
          (lookupKey name opts).getD []).map List.length).prod =
      (opts.map fun p => p.2.length).prod := by
  have hperm : (List.insertionSort (fun a b => pyStrLe a b = true)
      (opts.map Prod.fst)).Perm (opts.map Prod.fst) :=
    List.perm_insertionSort _ _
  have hmap : ((opts.map Prod.fst).map fun name =>
      ((lookupKey name opts).getD []).length) =
      opts.map fun p => p.2.length := by
    rw [List.map_map]
    apply List.map_congr_left
    intro p hp
    simp [Function.comp_def, lookupKey_self hnodup p hp]
  calc (((List.insertionSort (fun a b => pyStrLe a b = true)
        (opts.map Prod.fst)).map fun name =>
          (lookupKey name opts).getD []).map List.length).prod
      = ((List.insertionSort (fun a b => pyStrLe a b = true)
          (opts.map Prod.fst)).map fun name =>
            ((lookupKey name opts).getD []).length).prod := by
        rw [List.map_map]; rfl
    _ = ((opts.map Prod.fst).map fun name =>
          ((lookupKey name opts).getD []).length).prod :=
        (hperm.map _).prod_eq
    _ = (opts.map fun p => p.2.length).prod := by rw [hmap]

/-- **C1 counterexample**: a non-empty options mapping whose only
parameter maps to a non-empty value list, with combination count 1 well
within the cap 32, for which `generate_scenarios` raises the empty
suffix error instead of returning a 1-element list. -/
theorem C1_counterexample_cardinality :
    ([("despike_meth", [(0 : Int)])] : List (String × List Int)) ≠ [] ∧
    (∀ p ∈ ([("despike_meth", [(0 : Int)])] : List (String × List Int)),
      p.2 ≠ []) ∧
    (([("despike_meth", [(0 : Int)])] : List (String × List Int)).map
      fun p => p.2.length).prod = 1 ∧
    (1 : Nat) ≤ 32 ∧
    generate_scenarios [("despike_meth", [0])] 32 =
      .error .emptySuffix := by
  refine ⟨by decide, by decide, by decide, by decide, by rfl⟩

/-- **C1 amended**: for every non-empty, duplicate-free options mapping
in which every parameter maps to a non-empty value list *and at least
one parameter name is among the four suffix-rendered names*
(`rot_meth`, `tlag_meth`, `detrend_meth`, `despike_vm`),
`generate_scenarios` returns a list whose length equals the product of
the per-parameter value-list lengths, with 1-based contiguous indices in
enumeration order, whenever that product is at most `max_scenarios`; if
the product exceeds `max_scenarios` it fails with
`ScenarioLimitExceeded` reporting the computed count and the cap (so a
product equal to the cap succeeds and a product of cap + 1 fails).  The
suffix-name hypothesis is forced by the counterexample: without it the
`Scenario` constructor rejects the empty suffix. -/
theorem C1_generate_scenarios_cardinality
    (opts : List (String × List Int)) (max_scenarios : Nat)
    (hne : opts ≠ [])
    (hnodup : (opts.map Prod.fst).Nodup)
    (hvals : ∀ p ∈ opts, p.2 ≠ [])
    (hsuf : ∃ p ∈ opts, p.1 ∈ param_order) :
    ((opts.map fun p => p.2.length).prod ≤ max_scenarios →
      ∃ l, generate_scenarios opts max_scenarios = .ok l ∧
        l.length = (opts.map fun p => p.2.length).prod ∧
        ∀ i (h : i < l.length), (l.get ⟨i, h⟩).index = i + 1) ∧
    (max_scenarios < (opts.map fun p => p.2.length).prod →
      generate_scenarios opts max_scenarios =
        .error (.limitExceeded ((opts.map fun p => p.2.length).prod)
          max_scenarios)) := by
  have hempty : opts.isEmpty = false := by
    simpa [List.isEmpty_iff] using hne
  have hfind : opts.find? (fun p => p.2.isEmpty) = none :=
    List.find?_eq_none.mpr fun p hp => by
      simpa [List.isEmpty_iff] using hvals p hp
  have htot := total_combinations_eq opts hnodup
  constructor
  · intro hle
    have hnogt : ¬ ((((List.insertionSort (fun a b => pyStrLe a b = true)
        (opts.map Prod.fst)).map fun name =>
          (lookupKey name opts).getD []).map List.length).prod >
            max_scenarios) := by
      rw [htot]
      omega
    have hnames_ne : List.insertionSort (fun a b => pyStrLe a b = true)
        (opts.map Prod.fst) ≠ [] := by
      intro h
      have := (List.perm_insertionSort
        (fun a b => pyStrLe a b = true) (opts.map Prod.fst)).symm
      rw [h] at this
      have := this.eq_nil
      simp only [List.map_eq_nil_iff] at this
      exact hne this
    have hlens : ∀ c ∈ cartProd ((List.insertionSort
        (fun a b => pyStrLe a b = true) (opts.map Prod.fst)).map fun name =>
          (lookupKey name opts).getD []),
        c.length = (List.insertionSort (fun a b => pyStrLe a b = true)
          (opts.map Prod.fst)).length := by
      intro c hc
      rw [cartProd_mem_length hc, List.length_map]
    have hsuf2 : ∃ nm ∈ param_order, nm ∈ List.insertionSort
        (fun a b => pyStrLe a b = true) (opts.map Prod.fst) := by
      obtain ⟨p, hp, hmem⟩ := hsuf
      exact ⟨p.1, hmem, (List.perm_insertionSort _ _).mem_iff.mpr
        (List.mem_map_of_mem Prod.fst hp)⟩
    obtain ⟨l, hbuild, hlen, hidx⟩ := buildScenarios_ok
      (cartProd ((List.insertionSort (fun a b => pyStrLe a b = true)
        (opts.map Prod.fst)).map fun name => (lookupKey name opts).getD []))
      0 hnames_ne hlens hsuf2
    refine ⟨l, ?_, ?_, fun i h => by simpa using hidx i h⟩
    · simp only [generate_scenarios, hempty, hfind, Bool.false_eq_true,
        if_false]
      rw [if_neg hnogt]
      exact hbuild
    · rw [hlen, cartProd_length, htot]
  · intro hgt
    have hgt2 : (((List.insertionSort (fun a b => pyStrLe a b = true)
        (opts.map Prod.fst)).map fun name =>
          (lookupKey name opts).getD []).map List.length).prod >
            max_scenarios := by
      rw [htot]
      omega
    simp only [generate_scenarios, hempty, hfind, Bool.false_eq_true,
      if_false]
    rw [if_pos hgt2, htot]

/-- **C1 witness**: the amended theorem at the cap boundary — options
with 2 × 2 = 4 combinations succeed with cap 4 (product exactly equal to
the cap) yielding indices 1..4, and fail with cap 3 (product = cap + 1)
reporting count 4 and cap 3. -/
theorem C1_generate_scenarios_cardinality_witness :
    (∃ l, generate_scenarios [("rot_meth", [1, 3]), ("tlag_meth", [2, 4])] 4 =
        .ok l ∧ l.length = 4 ∧
        ∀ i (h : i < l.length), (l.get ⟨i, h⟩).index = i + 1) ∧
    generate_scenarios [("rot_meth", [1, 3]), ("tlag_meth", [2, 4])] 3 =
      .error (.limitExceeded 4 3) := by
  have h := C1_generate_scenarios_cardinality
    [("rot_meth", [1, 3]), ("tlag_meth", [2, 4])] 4
    (by decide) (by decide) (by decide)
    ⟨("rot_meth", [1, 3]), by decide, by decide⟩
  have h3 := C1_generate_scenarios_cardinality
    [("rot_meth", [1, 3]), ("tlag_meth", [2, 4])] 3
    (by decide) (by decide) (by decide)
    ⟨("rot_meth", [1, 3]), by decide, by decide⟩
  exact ⟨by simpa using h.1 (by decide), by simpa using h3.2 (by decide)⟩

/-- **C6**: scenario generation is deterministic and independent of the
input map's iteration order — for duplicate-free, non-empty options with
non-empty value lists, any reordering of the key/value-list pairs
produces the identical result (same ordered scenarios with the same
parameters, suffixes and indices), because the parameter names are
sorted before the Cartesian product is computed. -/
theorem C6_generate_scenarios_order_independent
    (l₁ l₂ : List (String × List Int)) (max_scenarios : Nat)
    (hperm : l₁.Perm l₂)
    (hnodup : (l₁.map Prod.fst).Nodup)
    (hne : l₁ ≠ [])
    (hvals : ∀ p ∈ l₁, p.2 ≠ []) :
    generate_scenarios l₁ max_scenarios = generate_scenarios l₂ max_scenarios := by
  have hne₂ : l₂ ≠ [] := fun h => hne ((h ▸ hperm).eq_nil)
  have hempty₁ : l₁.isEmpty = false := by simpa [List.isEmpty_iff] using hne
  have hempty₂ : l₂.isEmpty = false := by simpa [List.isEmpty_iff] using hne₂
  have hfind₁ : l₁.find? (fun p => p.2.isEmpty) = none :=
    List.find?_eq_none.mpr fun p hp => by
      simpa [List.isEmpty_iff] using hvals p hp
  have hfind₂ : l₂.find? (fun p => p.2.isEmpty) = none :=
    List.find?_eq_none.mpr fun p hp => by
      simpa [List.isEmpty_iff] using hvals p (hperm.mem_iff.mpr hp)
  have hnames : List.insertionSort (fun a b => pyStrLe a b = true)
      (l₁.map Prod.fst) = List.insertionSort (fun a b => pyStrLe a b = true)
      (l₂.map Prod.fst) := insertionSort_eq_of_perm (hperm.map Prod.fst)
  have hlists : ((List.insertionSort (fun a b => pyStrLe a b = true)
      (l₂.map Prod.fst)).map fun name => (lookupKey name l₁).getD []) =
      ((List.insertionSort (fun a b => pyStrLe a b = true)
        (l₂.map Prod.fst)).map fun name => (lookupKey name l₂).getD []) :=
    List.map_congr_left fun name _ => by
      rw [lookupKey_perm hperm hnodup name]
  simp only [generate_scenarios, hempty₁, hempty₂, hfind₁, hfind₂,
    Bool.false_eq_true, if_false, hnames, hlists]

/-- **C6 witness**: the determinism theorem applied to the same mapping
given in two different insertion orders. -/
theorem C6_generate_scenarios_order_independent_witness :
    generate_scenarios [("rot_meth", [1, 3]), ("tlag_meth", [2])] 32 =
      generate_scenarios [("tlag_meth", [2]), ("rot_meth", [1, 3])] 32 :=
  C6_generate_scenarios_order_independent
    [("rot_meth", [1, 3]), ("tlag_meth", [2])]
    [("tlag_meth", [2]), ("rot_meth", [1, 3])] 32
    (by decide) (by decide) (by decide) (by decide)

/-- **C5**: running a batch produces exactly one `ScenarioResult` per
scenario, in scenario order (the i-th result is the execution of the
i-th scenario), and any error raised inside a scenario's `try:` block
(template, metadata, preflight or execution error) is caught at the
scenario boundary and recorded in that scenario's result with
`success = false` and the captured error message — so the batch loop,
which is a plain map over the scenario list, always continues to the
next scenario instead of aborting. -/
theorem C5_batch_one_result_per_scenario (env : Scenario → StageEnv)
    (dry_run : Bool) (scenario_list : List Scenario) :
    (run_scenario_batch env dry_run scenario_list).length =
      scenario_list.length ∧
    (∀ i : Nat, (run_scenario_batch env dry_run scenario_list).get? i =
      (scenario_list.get? i).map (run_single_scenario env dry_run)) ∧
    (∀ s e, runSingleScenarioCore env dry_run s = .error e →
      (run_single_scenario env dry_run s).success = false ∧
      (run_single_scenario env dry_run s).error = some e ∧
      (run_single_scenario env dry_run s).scenario_index = s.index ∧
      (run_single_scenario env dry_run s).return_code = -1) := by
  refine ⟨List.length_map _ _, ?_, ?_⟩
  · intro i
    simp [run_scenario_batch, List.getElem?_map]
  · intro s e h
    simp [run_single_scenario, h]

/-- **C5 witness**: a 3-scenario batch whose second scenario fails
preflight validation still yields 3 results, the second with
`success = false` and the captured message, the others reflecting the
completed execution. -/
theorem C5_batch_one_result_per_scenario_witness :
    (run_scenario_batch
        (fun s => if s.index = 2 then
          ⟨.ok (), true, .ok (), .ok (), .error "preflight failed", .ok true⟩
        else ⟨.ok (), true, .ok (), .ok (), .ok (), .ok true⟩) false
        [⟨[("rot_meth", 1)], "_rot1", 1⟩, ⟨[("rot_meth", 3)], "_rot3", 2⟩,
         ⟨[("tlag_meth", 2)], "_tlag2", 3⟩]).length = 3 ∧
    (run_single_scenario
        (fun s => if s.index = 2 then
          ⟨.ok (), true, .ok (), .ok (), .error "preflight failed", .ok true⟩
        else ⟨.ok (), true, .ok (), .ok (), .ok (), .ok true⟩) false
        ⟨[("rot_meth", 3)], "_rot3", 2⟩).success = false ∧
    (run_single_scenario
        (fun s => if s.index = 2 then
          ⟨.ok (), true, .ok (), .ok (), .error "preflight failed", .ok true⟩
        else ⟨.ok (), true, .ok (), .ok (), .ok (), .ok true⟩) false
        ⟨[("rot_meth", 3)], "_rot3", 2⟩).error = some "preflight failed" := by
  have h := C5_batch_one_result_per_scenario
    (fun s => if s.index = 2 then
      ⟨.ok (), true, .ok (), .ok (), .error "preflight failed", .ok true⟩
    else ⟨.ok (), true, .ok (), .ok (), .ok (), .ok true⟩) false
    [⟨[("rot_meth", 1)], "_rot1", 1⟩, ⟨[("rot_meth", 3)], "_rot3", 2⟩,
     ⟨[("tlag_meth", 2)], "_tlag2", 3⟩]
  have hrec := h.2.2 ⟨[("rot_meth", 3)], "_rot3", 2⟩ "preflight failed"
    (by rfl)
  exact ⟨h.1, hrec.1, hrec.2.1⟩

theorem parseRows_ok {l : List EcmdRow} {l2 : List (EcmdRow × DateTime)}
    (h : parseRows l = .ok l2) :
    (∀ rd ∈ l2, rd.1 ∈ l ∧
      parse_ecmd_date rd.1.dateOfVariation = .ok rd.2) ∧
    (∀ r ∈ l, ∃ d, (r, d) ∈ l2 ∧
      parse_ecmd_date r.dateOfVariation = .ok d) := by
  induction l generalizing l2 with
  | nil =>
    simp only [parseRows] at h
    cases h
    exact ⟨fun rd hrd => absurd hrd (by simp), fun r hr => absurd hr (by simp)⟩
  | cons r rs ih =>
    simp only [parseRows] at h
    cases hp : parse_ecmd_date r.dateOfVariation with
    | error e => rw [hp] at h; cases h
    | ok d =>
      rw [hp] at h
      cases hrest : parseRows rs with
      | error e => rw [hrest] at h; cases h
      | ok rest =>
        rw [hrest] at h
        have hl2 : l2 = (r, d) :: rest := by
          cases h; rfl
        subst hl2
        obtain ⟨ih1, ih2⟩ := ih hrest
        constructor
        · intro rd hrd
          rcases List.mem_cons.mp hrd with he | he
          · subst he
            exact ⟨List.mem_cons_self _ _, hp⟩
          · exact ⟨List.mem_cons_of_mem _ (ih1 rd he).1, (ih1 rd he).2⟩
        · intro r2 hr2
          rcases List.mem_cons.mp hr2 with he | he
          · subst he
            exact ⟨d, List.mem_cons_self _ _, hp⟩
          · obtain ⟨d2, hm, hpd⟩ := ih2 r2 he
            exact ⟨d2, List.mem_cons_of_mem _ hm, hpd⟩

theorem pickLatest_mem {l : List (EcmdRow × DateTime)}
    {rd : EcmdRow × DateTime} (h : pickLatest l = some rd) : rd ∈ l := by
  induction l generalizing rd with
  | nil => cases h
  | cons x xs ih =>
    simp only [pickLatest] at h
    cases hp : pickLatest xs with
    | none =>
      rw [hp] at h
      cases h
      exact List.mem_cons_self _ _
    | some best =>
      rw [hp] at h
      cases h
      by_cases hle : best.2.toKey ≤ x.2.toKey
      · simp only [if_pos hle]
        exact List.mem_cons_self _ _
      · simp only [if_neg hle]
        exact List.mem_cons_of_mem _ (ih hp)

theorem pickLatest_eq_none {l : List (EcmdRow × DateTime)} :
    pickLatest l = none ↔ l = [] := by
  cases l with
  | nil => simp [pickLatest]
  | cons x xs =>
    simp only [pickLatest]
    cases pickLatest xs <;> simp

theorem pickLatest_max {l : List (EcmdRow × DateTime)}
    {rd : EcmdRow × DateTime} (h : pickLatest l = some rd) :
    ∀ x ∈ l, x.2.toKey ≤ rd.2.toKey := by
  induction l generalizing rd with
  | nil => cases h
  | cons y ys ih =>
    simp only [pickLatest] at h
    intro x hx
    cases hp : pickLatest ys with
    | none =>
      rw [hp] at h
      cases h
      rcases List.mem_cons.mp hx with he | he
      · rw [he]
      · rw [pickLatest_eq_none.mp hp] at he
        cases he
    | some best =>
      rw [hp] at h
      cases h
      rcases List.mem_cons.mp hx with he | he
      · subst he
        by_cases hle : best.2.toKey ≤ x.2.toKey
        · simp [if_pos hle]
        · simp only [if_neg hle]
          omega
      · have := ih hp x he
        by_cases hle : best.2.toKey ≤ y.2.toKey
        · simp only [if_pos hle]
          omega
        · simp only [if_neg hle]
          exact this

theorem select_eq_of_parse {rows : List EcmdRow} {site_id : String}
    {year : Nat} {parsed : List (EcmdRow × DateTime)}
    (hp : parseRows (rows.filter fun r => r.siteId = site_id) = .ok parsed) :
    select_ecmd_row_for_year rows site_id year =
      match pickLatest (parsed.filter fun rd =>
          rd.2.toKey ≤ (DateTime.mk year 1 1 0 0).toKey) with
      | some rd => .ok rd
      | none =>
        .error ("No ECMD row for site effective at or before start of year "
          ++ toString year) := by
  simp only [select_ecmd_row_for_year, hp]

theorem select_eq_of_parse_error {rows : List EcmdRow} {site_id : String}
    {year : Nat} {e : String}
    (hp : parseRows (rows.filter fun r => r.siteId = site_id) = .error e) :
    select_ecmd_row_for_year rows site_id year = .error e := by
  simp only [select_ecmd_row_for_year, hp]

/-- **C4** (selection modelled from the spec; `select_ecmd_row_for_year`
is absent from `src/`): among the log rows matching the site id whose
parsed effective date is at or before the start of the target year, the
selected row has the latest effective date; and when no matching row's
effective date is at or before the start of the target year, selection
fails with a metadata error instead of picking a future row. -/
theorem C4_metadata_row_selection (rows : List EcmdRow) (site_id : String)
    (year : Nat) :
    (∀ r d, select_ecmd_row_for_year rows site_id year = .ok (r, d) →
      r ∈ rows ∧ r.siteId = site_id ∧
      parse_ecmd_date r.dateOfVariation = .ok d ∧
      d.toKey ≤ (DateTime.mk year 1 1 0 0).toKey ∧
      ∀ r2 d2, r2 ∈ rows → r2.siteId = site_id →
        parse_ecmd_date r2.dateOfVariation = .ok d2 →
        d2.toKey ≤ (DateTime.mk year 1 1 0 0).toKey →
        d2.toKey ≤ d.toKey) ∧
    ((∀ r2 d2, r2 ∈ rows → r2.siteId = site_id →
        parse_ecmd_date r2.dateOfVariation = .ok d2 →
        ¬ d2.toKey ≤ (DateTime.mk year 1 1 0 0).toKey) →
      ∃ e, select_ecmd_row_for_year rows site_id year = .error e) := by
  constructor
  · intro r d hsel
    cases hp : parseRows (rows.filter fun r => r.siteId = site_id) with
    | error e =>
      rw [select_eq_of_parse_error hp] at hsel
      cases hsel
    | ok parsed =>
      rw [select_eq_of_parse hp] at hsel
      cases hpick : pickLatest (parsed.filter fun rd =>
          rd.2.toKey ≤ (DateTime.mk year 1 1 0 0).toKey) with
      | none => rw [hpick] at hsel; cases hsel
      | some rd =>
        rw [hpick] at hsel
        have hrd : rd = (r, d) := by cases hsel; rfl
        subst hrd
        have hmem := pickLatest_mem hpick
        have hfil := List.mem_filter.mp hmem
        obtain ⟨h1, h2⟩ := parseRows_ok hp
        have hin := h1 (r, d) hfil.1
        have hmatch := List.mem_filter.mp hin.1
        refine ⟨hmatch.1, by simpa using hmatch.2, hin.2,
          by simpa using hfil.2, ?_⟩
        intro r2 d2 hr2 hsite2 hparse2 hle2
        have hr2m : r2 ∈ rows.filter fun r => r.siteId = site_id :=
          List.mem_filter.mpr ⟨hr2, by simpa using hsite2⟩
        obtain ⟨d3, hd3mem, hd3parse⟩ := h2 r2 hr2m
        have hd : d3 = d2 := by
          rw [hparse2] at hd3parse
          cases hd3parse
          rfl
        subst hd
        have helig : (r2, d3) ∈ parsed.filter fun rd =>
            rd.2.toKey ≤ (DateTime.mk year 1 1 0 0).toKey :=
          List.mem_filter.mpr ⟨hd3mem, by simpa using hle2⟩
        exact pickLatest_max hpick (r2, d3) helig
  · intro hnone
    cases hp : parseRows (rows.filter fun r => r.siteId = site_id) with
    | error e => exact ⟨e, select_eq_of_parse_error hp⟩
    | ok parsed =>
      have helig : (parsed.filter fun rd =>
          rd.2.toKey ≤ (DateTime.mk year 1 1 0 0).toKey) = [] := by
        rw [List.filter_eq_nil_iff]
        intro rd hrd
        obtain ⟨h1, _⟩ := parseRows_ok hp
        have hin := h1 rd hrd
        have hmatch := List.mem_filter.mp hin.1
        have := hnone rd.1 rd.2 hmatch.1 (by simpa using hmatch.2) hin.2
        simpa using this
      refine ⟨"No ECMD row for site effective at or before start of year " ++
        toString year, ?_⟩
      rw [select_eq_of_parse hp, helig, pickLatest_eq_none.mpr rfl]

/-- **C4 witness**: the selection theorem at the spec's concrete
example — rows effective 2020-01-01 and 2021-01-01 for site `SITE`;
selecting year 2021 returns a row of the log (derived through the
theorem), and selecting year 2019 fails with a metadata error. -/
theorem C4_metadata_row_selection_witness :
    ((⟨"SITE", "202101010000"⟩ : EcmdRow) ∈
      ([⟨"SITE", "202001010000"⟩, ⟨"SITE", "202101010000"⟩] :
        List EcmdRow)) ∧
    (∃ e, select_ecmd_row_for_year
      [⟨"SITE", "202001010000"⟩, ⟨"SITE", "202101010000"⟩]
      "SITE" 2019 = .error e) := by
  constructor
  · exact ((C4_metadata_row_selection
      [⟨"SITE", "202001010000"⟩, ⟨"SITE", "202101010000"⟩] "SITE" 2021).1
      ⟨"SITE", "202101010000"⟩ ⟨2021, 1, 1, 0, 0⟩ (by rfl)).1
  · apply (C4_metadata_row_selection
      [⟨"SITE", "202001010000"⟩, ⟨"SITE", "202101010000"⟩] "SITE" 2019).2
    intro r2 d2 hr hsite hparse hle
    rcases List.mem_cons.mp hr with he | he
    · subst he
      rw [show parse_ecmd_date "202001010000" =
        .ok ⟨2020, 1, 1, 0, 0⟩ from rfl] at hparse
      cases hparse
      simp [DateTime.toKey] at hle
    · rcases List.mem_cons.mp he with he2 | he2
      · subst he2
        rw [show parse_ecmd_date "202101010000" =
          .ok ⟨2021, 1, 1, 0, 0⟩ from rfl] at hparse
        cases hparse
        simp [DateTime.toKey] at hle
      · cases he2

theorem foldl_min_le_init (ys : List ℚ) (acc : ℚ) : ys.foldl min acc ≤ acc := by
  induction ys generalizing acc with
  | nil => simp
  | cons y ys ih =>
    simp only [List.foldl_cons]
    exact le_trans (ih (min acc y)) (min_le_left acc y)

theorem foldl_min_le_mem : ∀ (ys : List ℚ) (acc x : ℚ), x ∈ ys →
    ys.foldl min acc ≤ x := by
  intro ys
  induction ys with
  | nil => intro acc x hx; cases hx
  | cons y ys ih =>
    intro acc x hx
    rcases List.mem_cons.mp hx with he | he
    · subst he
      exact le_trans (foldl_min_le_init ys (min acc x)) (min_le_right acc x)
    · exact ih (min acc y) x he

theorem listMin_le_mem {l : List ℚ} {x : ℚ} (hx : x ∈ l) : listMin l ≤ x := by
  cases l with
  | nil => cases hx
  | cons y ys =>
    rcases List.mem_cons.mp hx with he | he
    · subst he
      exact foldl_min_le_init ys x
    · exact foldl_min_le_mem ys y x he

theorem init_le_foldl_max (ys : List ℚ) (acc : ℚ) : acc ≤ ys.foldl max acc := by
  induction ys generalizing acc with
  | nil => simp
  | cons y ys ih =>
    simp only [List.foldl_cons]
    exact le_trans (le_max_left acc y) (ih (max acc y))

theorem mem_le_foldl_max : ∀ (ys : List ℚ) (acc x : ℚ), x ∈ ys →
    x ≤ ys.foldl max acc := by
  intro ys
  induction ys with
  | nil => intro acc x hx; cases hx
  | cons y ys ih =>
    intro acc x hx
    rcases List.mem_cons.mp hx with he | he
    · subst he
      exact le_trans (le_max_right acc x) (init_le_foldl_max ys (max acc x))
    · exact ih (max acc y) x he

theorem mem_le_listMax {l : List ℚ} {x : ℚ} (hx : x ∈ l) : x ≤ listMax l := by
  cases l with
  | nil => cases hx
  | cons y ys =>
    rcases List.mem_cons.mp hx with he | he
    · subst he
      exact init_le_foldl_max ys x
    · exact mem_le_foldl_max ys y x he

theorem getD_mem {l : List ℚ} {n : Nat} (h : n < l.length) : l.getD n 0 ∈ l := by
  rw [List.getD_eq_getElem l 0 h]
  exact List.getElem_mem h

theorem sorted_getD_mono {l : List ℚ} (hs : List.Sorted (· ≤ ·) l)
    {i j : Nat} (hij : i ≤ j) (hj : j < l.length) :
    l.getD i 0 ≤ l.getD j 0 := by
  have hi : i < l.length := lt_of_le_of_lt hij hj
  rw [List.getD_eq_getElem l 0 hi, List.getD_eq_getElem l 0 hj]
  rcases Nat.lt_or_ge i j with h | h
  · have h2 := List.pairwise_iff_get.mp hs ⟨i, hi⟩ ⟨j, hj⟩
      (Fin.mk_lt_mk.mpr h)
    simpa using h2
  · have heq : i = j := le_antisymm hij h
    subst heq
    rfl

/-- The upper interpolation index of `_percentile` at a fractional
index: the index itself when integral, its floor plus one otherwise. -/
def upIdx (x : ℚ) : Nat :=
  if x.den = 1 then (⌊x⌋).toNat else (⌊x⌋).toNat + 1

theorem interpAt_sandwich {l : List ℚ} (hs : List.Sorted (· ≤ ·) l)
    {x : ℚ} (h0 : 0 ≤ x) (hub : x ≤ (l.length : ℚ) - 1) :
    l.getD (⌊x⌋).toNat 0 ≤ interpAt l x ∧
    interpAt l x ≤ l.getD (upIdx x) 0 ∧
    upIdx x < l.length ∧ (⌊x⌋).toNat ≤ upIdx x := by
  have hn1 : (1 : ℚ) ≤ (l.length : ℚ) := by
    have := le_trans h0 hub
    linarith
  have hn : 1 ≤ l.length := by exact_mod_cast hn1
  have hf0 : 0 ≤ ⌊x⌋ := Int.floor_nonneg.mpr h0
  have hfcast : ((⌊x⌋).toNat : ℤ) = ⌊x⌋ := Int.toNat_of_nonneg hf0
  have hflub : ⌊x⌋ ≤ (l.length : ℤ) - 1 := by
    have h2 : ⌊x⌋ ≤ ⌊(((l.length : ℤ) - 1 : ℤ) : ℚ)⌋ :=
      Int.floor_le_floor (by push_cast; linarith)
    rwa [Int.floor_intCast] at h2
  by_cases hden : x.den = 1
  · have hnum : (x.num : ℚ) = x := (Rat.den_eq_one_iff x).mp hden
    have hfl : ⌊x⌋ = x.num := by
      conv_lhs => rw [← hnum]
      exact Int.floor_intCast x.num
    have hidx : x.num.toNat = (⌊x⌋).toNat := by rw [hfl]
    have heq : interpAt l x = l.getD (⌊x⌋).toNat 0 := by
      simp only [interpAt, if_pos hden, hidx]
    have hup : upIdx x = (⌊x⌋).toNat := by simp [upIdx, hden]
    refine ⟨le_of_eq heq.symm, le_of_eq (hup ▸ heq), ?_, le_of_eq hup.symm⟩
    rw [hup]
    omega
  · have hxlt : x < (l.length : ℚ) - 1 := by
      rcases lt_or_eq_of_le hub with h | h
      · exact h
      · exfalso
        apply hden
        have : x = (((l.length : ℤ) - 1 : ℤ) : ℚ) := by push_cast; linarith
        rw [this]
        exact Rat.den_intCast _
    have hflub2 : ⌊x⌋ ≤ (l.length : ℤ) - 2 := by
      have hle : (⌊x⌋ : ℚ) ≤ x := Int.floor_le x
      have hlt : (⌊x⌋ : ℚ) < (l.length : ℚ) - 1 := lt_of_le_of_lt hle hxlt
      have hint : ⌊x⌋ < (l.length : ℤ) - 1 := by exact_mod_cast hlt
      omega
    have hup : upIdx x = (⌊x⌋).toNat + 1 := by simp [upIdx, hden]
    have hupn : (⌊x⌋).toNat + 1 < l.length := by omega
    have hkn : (⌊x⌋).toNat < l.length := by omega
    have hw0 : 0 ≤ x - ⌊x⌋ := sub_nonneg.mpr (Int.floor_le x)
    have hw1 : x - ⌊x⌋ ≤ 1 := by
      have := Int.lt_floor_add_one x
      linarith
    have hab : l.getD (⌊x⌋).toNat 0 ≤ l.getD ((⌊x⌋).toNat + 1) 0 :=
      sorted_getD_mono hs (Nat.le_succ _) hupn
    have heq : interpAt l x =
        l.getD (⌊x⌋).toNat 0 * (1 - (x - ⌊x⌋)) +
          l.getD ((⌊x⌋).toNat + 1) 0 * (x - ⌊x⌋) := by
      simp only [interpAt, if_neg hden]
    refine ⟨?_, ?_, hup ▸ hupn, hup ▸ Nat.le_succ _⟩
    · rw [heq]
      have hmul := mul_le_mul_of_nonneg_right hab hw0
      nlinarith
    · rw [heq, hup]
      have hmul := mul_le_mul_of_nonneg_right hab (by linarith : (0:ℚ) ≤ 1 - (x - ⌊x⌋))
      nlinarith

theorem interpAt_mono {l : List ℚ} (hs : List.Sorted (· ≤ ·) l)
    {i j : ℚ} (h0 : 0 ≤ i) (hij : i ≤ j)
    (hj : j ≤ (l.length : ℚ) - 1) :
    interpAt l i ≤ interpAt l j := by
  have hj0 : 0 ≤ j := le_trans h0 hij
  have hiub : i ≤ (l.length : ℚ) - 1 := le_trans hij hj
  obtain ⟨hloi, hupi, hupilt, hkui⟩ := interpAt_sandwich hs h0 hiub
  obtain ⟨hloj, hupj, hupjlt, hkuj⟩ := interpAt_sandwich hs hj0 hj
  have hf0i : 0 ≤ ⌊i⌋ := Int.floor_nonneg.mpr h0
  have hf0j : 0 ≤ ⌊j⌋ := Int.floor_nonneg.mpr hj0
  have hflij : ⌊i⌋ ≤ ⌊j⌋ := Int.floor_le_floor hij
  have hkij : (⌊i⌋).toNat ≤ (⌊j⌋).toNat := Int.toNat_le_toNat hflij
  have hkjlt : (⌊j⌋).toNat < l.length := lt_of_le_of_lt hkuj hupjlt
  by_cases hcmp : upIdx i ≤ (⌊j⌋).toNat
  · calc interpAt l i ≤ l.getD (upIdx i) 0 := hupi
      _ ≤ l.getD ((⌊j⌋).toNat) 0 := sorted_getD_mono hs hcmp hkjlt
      _ ≤ interpAt l j := hloj
  · by_cases hdeni : i.den = 1
    · exfalso
      apply hcmp
      simp only [upIdx, if_pos hdeni]
      exact hkij
    · have hupieq : upIdx i = (⌊i⌋).toNat + 1 := by simp [upIdx, hdeni]
      have hkeq : (⌊j⌋).toNat = (⌊i⌋).toNat := by omega
      have hfleq : ⌊j⌋ = ⌊i⌋ := by omega
      by_cases hdenj : j.den = 1
      · exfalso
        have hnumj : (j.num : ℚ) = j := (Rat.den_eq_one_iff j).mp hdenj
        have hflj : ⌊j⌋ = j.num := by
          conv_lhs => rw [← hnumj]
          exact Int.floor_intCast j.num
        have hji : j = (⌊j⌋ : ℚ) := by rw [hflj, hnumj]
        have hile : (⌊i⌋ : ℚ) ≤ i := Int.floor_le i
        have : i = (⌊i⌋ : ℚ) := by
          rw [hfleq] at hji
          linarith [hij, hji, hile]
        apply hdeni
        rw [this]
        exact Rat.den_intCast _
      · have heqi : interpAt l i =
            l.getD (⌊i⌋).toNat 0 * (1 - (i - ⌊i⌋)) +
              l.getD ((⌊i⌋).toNat + 1) 0 * (i - ⌊i⌋) := by
          simp only [interpAt, if_neg hdeni]
        have heqj : interpAt l j =
            l.getD (⌊j⌋).toNat 0 * (1 - (j - ⌊j⌋)) +
              l.getD ((⌊j⌋).toNat + 1) 0 * (j - ⌊j⌋) := by
          simp only [interpAt, if_neg hdenj]
        rw [heqi, heqj, hkeq, hfleq]
        have hupn : (⌊i⌋).toNat + 1 < l.length := by
          rw [← hupieq]
          exact hupilt
        have hab : l.getD (⌊i⌋).toNat 0 ≤ l.getD ((⌊i⌋).toNat + 1) 0 :=
          sorted_getD_mono hs (Nat.le_succ _) hupn
        have hww : i - ⌊i⌋ ≤ j - ⌊i⌋ := by linarith
        nlinarith [mul_le_mul_of_nonneg_right hww (sub_nonneg.mpr hab)]

theorem interpAt_bounds {l : List ℚ} (hs : List.Sorted (· ≤ ·) l)
    {x : ℚ} (h0 : 0 ≤ x) (hub : x ≤ (l.length : ℚ) - 1) :
    listMin l ≤ interpAt l x ∧ interpAt l x ≤ listMax l := by
  obtain ⟨hlo, hup, huplt, hku⟩ := interpAt_sandwich hs h0 hub
  have hklt : (⌊x⌋).toNat < l.length := lt_of_le_of_lt hku huplt
  constructor
  · exact le_trans (listMin_le_mem (getD_mem hklt)) hlo
  · exact le_trans hup (mem_le_listMax (getD_mem huplt))

theorem calculate_stats_spec {values : List ℚ} {st : Stats}
    (h : calculate_stats values = some st) :
    st.count = values.length ∧
    ∀ a b c, st.p50 = some a → st.p90 = some b → st.p95 = some c →
      st.min ≤ a ∧ a ≤ b ∧ b ≤ c ∧ c ≤ st.max := by
  by_cases hv : values = []
  · simp [calculate_stats, hv] at h
  · simp only [calculate_stats, if_neg hv] at h
    cases h
    have hlen : (List.insertionSort (fun a b => a ≤ b) values).length =
        values.length := (List.perm_insertionSort _ values).length_eq
    refine ⟨hlen, ?_⟩
    intro a b c ha hb hc
    by_cases hn : (List.insertionSort (fun a b => a ≤ b) values).length ≥ 2
    · simp only [if_pos hn, Option.some_inj] at ha hb hc
      subst ha
      subst hb
      subst hc
      have hsorted : List.Sorted (· ≤ ·)
          (List.insertionSort (fun a b => a ≤ b) values) :=
        List.sorted_insertionSort _ values
      have hne : List.insertionSort (fun a b => a ≤ b) values ≠ [] := by
        intro he
        rw [he] at hn
        simp at hn
      set sorted := List.insertionSort (fun a b => a ≤ b) values with hsdef
      have hge0 : (0 : ℚ) ≤ (sorted.length : ℚ) - 1 := by
        have : (2 : ℚ) ≤ (sorted.length : ℚ) := by exact_mod_cast hn
        linarith
      have hp50 : percentile sorted (1 / 2) =
          interpAt sorted (1 / 2 * ((sorted.length : ℚ) - 1)) := by
        simp only [percentile, if_neg hne]
      have hp90 : percentile sorted (9 / 10) =
          interpAt sorted (9 / 10 * ((sorted.length : ℚ) - 1)) := by
        simp only [percentile, if_neg hne]
      have hp95 : percentile sorted (19 / 20) =
          interpAt sorted (19 / 20 * ((sorted.length : ℚ) - 1)) := by
        simp only [percentile, if_neg hne]
      have h50_0 : (0 : ℚ) ≤ 1 / 2 * ((sorted.length : ℚ) - 1) :=
        mul_nonneg (by norm_num) hge0
      have h90_0 : (0 : ℚ) ≤ 9 / 10 * ((sorted.length : ℚ) - 1) :=
        mul_nonneg (by norm_num) hge0
      have h95_ub : 19 / 20 * ((sorted.length : ℚ) - 1) ≤
          (sorted.length : ℚ) - 1 :=
        mul_le_of_le_one_left hge0 (by norm_num)
      have h90_ub : 9 / 10 * ((sorted.length : ℚ) - 1) ≤
          (sorted.length : ℚ) - 1 :=
        mul_le_of_le_one_left hge0 (by norm_num)
      have h5090 : 1 / 2 * ((sorted.length : ℚ) - 1) ≤
          9 / 10 * ((sorted.length : ℚ) - 1) :=
        mul_le_mul_of_nonneg_right (by norm_num) hge0
      have h9095 : 9 / 10 * ((sorted.length : ℚ) - 1) ≤
          19 / 20 * ((sorted.length : ℚ) - 1) :=
        mul_le_mul_of_nonneg_right (by norm_num) hge0
      refine ⟨?_, ?_, ?_, ?_⟩
      · rw [hp50]
        exact (interpAt_bounds hsorted h50_0
          (le_trans h5090 (le_trans h9095 h95_ub))).1
      · rw [hp50, hp90]
        exact interpAt_mono hsorted h50_0 h5090
          (le_trans h9095 h95_ub)
      · rw [hp90, hp95]
        exact interpAt_mono hsorted h90_0 h9095 h95_ub
      · rw [hp95]
        exact (interpAt_bounds hsorted (le_trans h90_0 h9095) h95_ub).2
    · simp only [if_neg hn] at ha
      cases ha

/-- **C9**: for every monitoring run whose summary was produced from
N ≥ 1 collected samples, the summary reports `samples.count = N`, and
for every numeric metric field whose statistics include the interpolated
percentiles (which the code computes whenever at least two values are
present) the statistics satisfy `min ≤ p50 ≤ p90 ≤ p95 ≤ max`. -/
theorem C9_monitor_summary_stats (samples : List Sample)
    (summary : Summary) (h : generate_summary samples = some summary) :
    summary.samplesCount = samples.length ∧
    ∀ field st, (field, st) ∈ summary.metrics →
      ∀ a b c, st.p50 = some a → st.p90 = some b → st.p95 = some c →
        st.min ≤ a ∧ a ≤ b ∧ b ≤ c ∧ c ≤ st.max := by
  by_cases hs : samples = []
  · simp [generate_summary, hs] at h
  · simp only [generate_summary, if_neg hs, Option.some_inj] at h
    subst h
    refine ⟨rfl, ?_⟩
    intro field st hmem a b c ha hb hc
    simp only [List.mem_filterMap] at hmem
    obtain ⟨field2, _, hmap⟩ := hmem
    rw [Option.map_eq_some'] at hmap
    obtain ⟨st2, hcalc, heq⟩ := hmap
    have hf : field2 = field := congrArg Prod.fst heq
    have hst : st2 = st := congrArg Prod.snd heq
    subst hf
    subst hst
    exact (calculate_stats_spec hcalc).2 a b c ha hb hc

/-- `generate_summary` evaluated at a concrete two-sample run: the cpu
field collects values 1 and 3, whose statistics are min 1, max 3, mean
2, p50 = 2, p90 = 14/5, p95 = 29/10. -/
theorem generate_summary_two_samples :
    generate_summary [[("cpu", some 1)], [("cpu", some 3)]] =
      some ⟨2, [("cpu", ⟨1, 3, 2, 2, some 2, some (14 / 5),
        some (29 / 10)⟩)]⟩ := by
  have hcalc : calculate_stats [(1 : ℚ), 3] =
      some ⟨1, 3, 2, 2, some 2, some (14 / 5), some (29 / 10)⟩ := by
    have hsort : List.insertionSort (fun a b : ℚ => a ≤ b) [1, 3] =
        [1, 3] := by decide
    simp only [calculate_stats, if_neg (by decide : ¬([(1 : ℚ), 3] = [])),
      hsort, Option.some_inj, Stats.mk.injEq]
    refine ⟨by simp [listMin, min_def], by simp [listMax, max_def],
      by norm_num, rfl, ?_, ?_, ?_⟩
    all_goals
      rw [if_pos (by norm_num : ([(1 : ℚ), 3]).length ≥ 2)]
      simp only [percentile, if_neg (by decide : ¬([(1 : ℚ), 3] = [])),
        interpAt]
      norm_num
  have hvals : List.filterMap (fun s => (lookupKey "cpu" s).bind id)
      ([[("cpu", some (1 : ℚ))], [("cpu", some 3)]] : List Sample) =
      [1, 3] := rfl
  have step1 : generate_summary [[("cpu", some 1)], [("cpu", some 3)]] =
      some ⟨2, List.filterMap (fun field =>
        (calculate_stats (List.filterMap (fun s => (lookupKey field s).bind id)
          ([[("cpu", some (1 : ℚ))], [("cpu", some 3)]] : List Sample))).map
            fun st => (field, st)) ["cpu"]⟩ := rfl
  rw [step1, List.filterMap_cons, List.filterMap_nil]
  show (match (calculate_stats (List.filterMap
      (fun s => (lookupKey "cpu" s).bind id)
      ([[("cpu", some (1 : ℚ))], [("cpu", some 3)]] : List Sample))).map
        (fun st => ("cpu", st)) with
    | none => some (⟨2, []⟩ : Summary)
    | some b => some (⟨2, [b]⟩ : Summary)) = _
  rw [hvals, hcalc]
  rfl

/-- **C9 witness**: the summary theorem applied to a concrete monitor
run of two samples — the reported count equals the number of samples and
the cpu statistics satisfy `min ≤ p50 ≤ p90 ≤ p95 ≤ max`. -/
theorem C9_monitor_summary_stats_witness :
    (⟨2, [("cpu", ⟨1, 3, 2, 2, some 2, some (14 / 5), some (29 / 10)⟩)]⟩ :
        Summary).samplesCount =
      ([[("cpu", some 1)], [("cpu", some 3)]] : List Sample).length ∧
    ((1 : ℚ) ≤ 2 ∧ (2 : ℚ) ≤ 14 / 5 ∧ (14 / 5 : ℚ) ≤ 29 / 10 ∧
      (29 / 10 : ℚ) ≤ 3) := by
  have h := C9_monitor_summary_stats [[("cpu", some 1)], [("cpu", some 3)]]
    ⟨2, [("cpu", ⟨1, 3, 2, 2, some 2, some (14 / 5), some (29 / 10)⟩)]⟩
    generate_summary_two_samples
  refine ⟨h.1, ?_⟩
  exact h.2 "cpu" ⟨1, 3, 2, 2, some 2, some (14 / 5), some (29 / 10)⟩
    (by simp) 2 (14 / 5) (29 / 10) rfl rfl rfl

end EddyProBatch
